import Mathlib

/-!
Shallow embedding of the Flask-Task-Manager application (`src/app.py`).

The application is a single-table CRUD web app over "todo" items.  We model:

* the `Todo` row (`class Todo(db.Model)`, app.py lines 46-62): integer primary
  key `id`, string `title`, boolean `completed`, timestamp `created_at`;
* the database as a `Store`: the list of rows in insertion (rowid) order,
  together with the auto-increment counter for the next primary key and a
  logical clock standing for `datetime.utcnow` (strictly increasing, which
  matches the intended "server-assigned timestamp" semantics);
* the five route handlers `index`, `add_todo`, `toggle_todo`, `delete_todo`
  and `edit_todo` as pure functions from a store (and the request data) to an
  HTTP response together with the successor store.  `get_or_404` is modelled
  by a lookup that, on `none`, returns the `notFound` response and leaves the
  store untouched, exactly as Flask aborts the handler before any mutation.

Form data `request.form.get('title')` is an `Option String` (`none` when the
field is absent); Python's `if title:` is string truthiness, `formTruthy`.
-/

namespace FlaskTaskManager

/-- One row of the `todo` table (`class Todo(db.Model)` in app.py). -/
structure Todo where
  id : Nat
  title : String
  completed : Bool
  created_at : Nat
  deriving Repr, DecidableEq

/-- The database state: rows in rowid order, the next auto-increment primary
key, and the logical clock used for `created_at` timestamps. -/
structure Store where
  todos : List Todo
  nextId : Nat
  clock : Nat
  deriving Repr, DecidableEq

/-- The state after `db.create_all()` on a fresh file: no rows, SQLite
auto-increment starts at 1. -/
def emptyStore : Store := { todos := [], nextId := 1, clock := 0 }

/-- The responses a handler can produce: a redirect to `url_for('index')`, an
HTTP 404 from `get_or_404`, or the rendered listing page. -/
inductive Response where
  | redirectIndex : Response
  | notFound : Response
  | html : List Todo → Response
  deriving Repr, DecidableEq

/-- Lookup `Todo.query.get(id)` / `get_or_404(id)`: the row whose primary key is
`i`, if any. -/
def getTodo (s : Store) (i : Nat) : Option Todo :=
  s.todos.find? (fun t => t.id == i)

/-- Python truthiness of `request.form.get('title')`: `None` and the empty
string are falsy, every other string (including whitespace) is truthy. -/
def formTruthy : Option String → Bool
  | none => false
  | some t => t != ""

/-- Comparison used by `order_by(Todo.created_at.desc())`: `a` sorts no later
than `b` in the descending listing when `b.created_at ≤ a.created_at`. -/
def todoNewer (a b : Todo) : Prop := b.created_at ≤ a.created_at

instance : DecidableRel todoNewer := fun a b => Nat.decLe b.created_at a.created_at

instance : IsTotal Todo todoNewer := ⟨fun a b => Nat.le_total b.created_at a.created_at⟩

instance : IsTrans Todo todoNewer := ⟨fun _ _ _ h1 h2 => Nat.le_trans h2 h1⟩

/-- Query `Todo.query.order_by(Todo.created_at.desc()).all()` (app.py line 85). -/
def listing (s : Store) : List Todo :=
  List.insertionSort todoNewer s.todos

/-- Route `GET /` — `index` (app.py lines 79-89): query all rows ordered newest
first and render them. -/
def index (s : Store) : Response :=
  Response.html (listing s)

/-- Route `POST /add` — `add_todo` (app.py lines 94-113): if the submitted title is
truthy, insert a new row with `completed = False` (column default) and the
current time, then redirect; otherwise just redirect. -/
def add_todo (s : Store) (title : Option String) : Response × Store :=
  if formTruthy title then
    let new_todo : Todo :=
      { id := s.nextId, title := title.getD "", completed := false,
        created_at := s.clock }
    (Response.redirectIndex,
      { todos := s.todos ++ [new_todo], nextId := s.nextId + 1,
        clock := s.clock + 1 })
  else
    (Response.redirectIndex, s)

/-- Committing a mutation of the fetched row: the row whose primary key is
`i` is replaced by its updated version, all other rows are untouched. -/
def updateById (i : Nat) (f : Todo → Todo) (l : List Todo) : List Todo :=
  l.map (fun v => if v.id == i then f v else v)

/-- Mutation `todo.completed = not todo.completed` (app.py line 127). -/
def flipCompleted (u : Todo) : Todo := { u with completed := !u.completed }

/-- Mutation `todo.title = title` (app.py line 165). -/
def setTitle (t : String) (u : Todo) : Todo := { u with title := t }

/-- Route `GET /toggle/<id>` — `toggle_todo` (app.py lines 119-133): 404 when the
id is absent; otherwise flip `completed` on that row, commit, redirect. -/
def toggle_todo (s : Store) (i : Nat) : Response × Store :=
  match getTodo s i with
  | none => (Response.notFound, s)
  | some _ =>
      (Response.redirectIndex,
        { s with todos := updateById i flipCompleted s.todos })

/-- Route `GET /delete/<id>` — `delete_todo` (app.py lines 137-150): 404 when the
id is absent; otherwise delete that row, commit, redirect. -/
def delete_todo (s : Store) (i : Nat) : Response × Store :=
  match getTodo s i with
  | none => (Response.notFound, s)
  | some _ =>
      (Response.redirectIndex,
        { s with todos := s.todos.filter (fun u => u.id != i) })

/-- Route `POST /edit/<id>` — `edit_todo` (app.py lines 154-171): 404 when the id
is absent; otherwise, if the submitted title is truthy, replace the row's
title and commit; in both cases redirect. -/
def edit_todo (s : Store) (i : Nat) (title : Option String) : Response × Store :=
  match getTodo s i with
  | none => (Response.notFound, s)
  | some _ =>
      if formTruthy title then
        (Response.redirectIndex,
          { s with todos := updateById i (setTitle (title.getD "")) s.todos })
      else
        (Response.redirectIndex, s)

/-- One client request, as far as the store is concerned. -/
inductive Op where
  | add (title : Option String)
  | toggle (i : Nat)
  | delete (i : Nat)
  | edit (i : Nat) (title : Option String)
  | list
  deriving Repr, DecidableEq

/-- The store after handling one request (the listing route reads only). -/
def applyOp (s : Store) : Op → Store
  | Op.add t => (add_todo s t).2
  | Op.toggle i => (toggle_todo s i).2
  | Op.delete i => (delete_todo s i).2
  | Op.edit i t => (edit_todo s i t).2
  | Op.list => s

/-- The store reached from a fresh database by a sequence of requests. -/
def runOps (ops : List Op) : Store :=
  ops.foldl applyOp emptyStore

/-- Every stored row has a non-empty title. -/
def nonEmptyTitles (s : Store) : Prop :=
  ∀ t ∈ s.todos, t.title ≠ ""

/-- Structural well-formedness of a database state: primary keys are below
the auto-increment counter and pairwise distinct, timestamps are below the
clock. -/
structure StoreWF (s : Store) : Prop where
  ids_lt : ∀ t ∈ s.todos, t.id < s.nextId
  times_lt : ∀ t ∈ s.todos, t.created_at < s.clock
  ids_nodup : (s.todos.map Todo.id).Nodup

/-- A one-row store used to instantiate the universally quantified theorems. -/
def sampleStore : Store :=
  { todos := [{ id := 1, title := "Buy milk", completed := false, created_at := 0 }],
    nextId := 2, clock := 1 }

/-! ### Helper lemmas -/

theorem getTodo_eq_none_iff (s : Store) (i : Nat) :
    getTodo s i = none ↔ ∀ t ∈ s.todos, t.id ≠ i := by
  simp [getTodo, List.find?_eq_none]

theorem flipCompleted_id (v : Todo) : (flipCompleted v).id = v.id := rfl

theorem setTitle_id (t : String) (v : Todo) : (setTitle t v).id = v.id := rfl

theorem flipCompleted_flipCompleted (v : Todo) : flipCompleted (flipCompleted v) = v := by
  cases v; simp [flipCompleted]

theorem toggle_todo_some (s : Store) (i : Nat) (w : Todo) (hw : getTodo s i = some w) :
    toggle_todo s i =
      (Response.redirectIndex, { s with todos := updateById i flipCompleted s.todos }) := by
  simp [toggle_todo, hw]

theorem delete_todo_some (s : Store) (i : Nat) (w : Todo) (hw : getTodo s i = some w) :
    delete_todo s i =
      (Response.redirectIndex, { s with todos := s.todos.filter (fun u => u.id != i) }) := by
  simp [delete_todo, hw]

theorem edit_todo_truthy (s : Store) (i : Nat) (w : Todo) (title : Option String)
    (hw : getTodo s i = some w) (ht : formTruthy title = true) :
    edit_todo s i title =
      (Response.redirectIndex,
        { s with todos := updateById i (setTitle (title.getD "")) s.todos }) := by
  simp [edit_todo, hw, ht]

theorem edit_todo_falsy (s : Store) (i : Nat) (w : Todo) (title : Option String)
    (hw : getTodo s i = some w) (ht : formTruthy title = false) :
    edit_todo s i title = (Response.redirectIndex, s) := by
  simp [edit_todo, hw, ht]

theorem find?_updateById (i : Nat) (f : Todo → Todo) (hf : ∀ v, (f v).id = v.id) :
    ∀ (l : List Todo) (u : Todo), l.find? (fun v => v.id == i) = some u →
      (updateById i f l).find? (fun v => v.id == i) = some (f u) := by
  intro l
  induction l with
  | nil => intro u hu; simp at hu
  | cons x l ih =>
      intro u hu
      by_cases hx : x.id = i
      · have hx' : (x.id == i) = true := by simp [hx]
        have hux : u = x := by
          simp [List.find?, hx'] at hu
          exact hu.symm
        subst hux
        simp [updateById, List.find?, hx', hf]
      · have hx' : (x.id == i) = false := by simp [hx]
        have hu' : l.find? (fun v => v.id == i) = some u := by
          simpa [List.find?, hx'] using hu
        have := ih u hu'
        simpa [updateById, List.find?, hx'] using this

theorem mem_updateById_of_ne (i : Nat) (f : Todo → Todo) (l : List Todo)
    (v : Todo) (hv : v ∈ l) (hne : v.id ≠ i) : v ∈ updateById i f l := by
  have hmem := List.mem_map_of_mem (fun v => if v.id == i then f v else v) hv
  simp only [updateById]
  simpa [hne] using hmem

theorem length_updateById (i : Nat) (f : Todo → Todo) (l : List Todo) :
    (updateById i f l).length = l.length := by
  simp [updateById]

theorem updateById_updateById (i : Nat) (f g : Todo → Todo)
    (hg : ∀ v, (g v).id = v.id) (l : List Todo) :
    updateById i f (updateById i g l) = updateById i (fun v => f (g v)) l := by
  simp only [updateById, List.map_map]
  apply List.map_congr_left
  intro v _
  by_cases hv : v.id = i
  · simp [Function.comp, hv, hg]
  · simp [Function.comp, hv]

theorem updateById_self (i : Nat) (f : Todo → Todo)
    (hfix : ∀ v, v.id = i → f v = v) (l : List Todo) :
    updateById i f l = l := by
  have h : ∀ v ∈ l, (fun v => if v.id == i then f v else v) v = id v := by
    intro v _
    by_cases hv : v.id = i
    · simp [hv, hfix v hv]
    · simp [hv]
  simpa [updateById] using (List.map_congr_left h).trans l.map_id

theorem insertionSort_append_newest (t : Todo) :
    ∀ l : List Todo, (∀ u ∈ l, u.created_at < t.created_at) →
      List.insertionSort todoNewer (l ++ [t]) = t :: List.insertionSort todoNewer l := by
  intro l
  induction l with
  | nil => intro _; rfl
  | cons x l ih =>
      intro h
      have hx : x.created_at < t.created_at := h x (List.mem_cons_self x l)
      have hrec := ih (fun u hu => h u (List.mem_cons_of_mem x hu))
      have hnot : ¬ todoNewer x t := by simpa [todoNewer] using hx
      simp [List.insertionSort, hrec, List.orderedInsert, hnot]

/-! ### Claims -/

/-- Claim C1: each id-addressed operation (toggle, delete, edit) fails with
Not-Found (HTTP 404) exactly when no stored item has the requested id, and
whenever one fails this way the stored items are unchanged. -/
theorem toggle_delete_edit_notFound_iff (s : Store) (i : Nat) (title : Option String) :
    (((toggle_todo s i).1 = Response.notFound) ↔ ∀ t ∈ s.todos, t.id ≠ i)
    ∧ (((delete_todo s i).1 = Response.notFound) ↔ ∀ t ∈ s.todos, t.id ≠ i)
    ∧ (((edit_todo s i title).1 = Response.notFound) ↔ ∀ t ∈ s.todos, t.id ≠ i)
    ∧ ((toggle_todo s i).1 = Response.notFound → (toggle_todo s i).2 = s)
    ∧ ((delete_todo s i).1 = Response.notFound → (delete_todo s i).2 = s)
    ∧ ((edit_todo s i title).1 = Response.notFound → (edit_todo s i title).2 = s) := by
  have key := getTodo_eq_none_iff s i
  rcases h : getTodo s i with _ | u
  · have hall : ∀ t ∈ s.todos, t.id ≠ i := key.mp h
    simp only [toggle_todo, delete_todo, edit_todo, h]
    simp
    exact hall
  · have hne : ¬ ∀ t ∈ s.todos, t.id ≠ i := fun hall => by simp [key.mpr hall] at h
    by_cases hft : formTruthy title <;>
      simp [toggle_todo, delete_todo, edit_todo, h, hft, hne]

/-- Witness for C1: on the fresh store no item has id 1, so toggling id 1
returns Not-Found and leaves the store unchanged. -/
theorem toggle_delete_edit_notFound_iff_witness :
    (toggle_todo emptyStore 1).1 = Response.notFound
    ∧ (toggle_todo emptyStore 1).2 = emptyStore :=
  ⟨(toggle_delete_edit_notFound_iff emptyStore 1 none).1.mpr (by decide),
   (toggle_delete_edit_notFound_iff emptyStore 1 none).2.2.2.1
     ((toggle_delete_edit_notFound_iff emptyStore 1 none).1.mpr (by decide))⟩

/-- Claim C2: adding a non-empty title appends exactly one new item carrying
that title with completed = false, leaving all previously stored items
unchanged; in the listing the count grows by one and the new item is first. -/
theorem add_nonempty_spec (s : Store) (t : String) (ht : t ≠ "")
    (hclock : ∀ u ∈ s.todos, u.created_at < s.clock) :
    (add_todo s (some t)).1 = Response.redirectIndex
    ∧ (add_todo s (some t)).2.todos =
        s.todos ++ [{ id := s.nextId, title := t, completed := false, created_at := s.clock }]
    ∧ listing (add_todo s (some t)).2 =
        { id := s.nextId, title := t, completed := false, created_at := s.clock } :: listing s
    ∧ (listing (add_todo s (some t)).2).length = (listing s).length + 1 := by
  have hft : formTruthy (some t) = true := by simp [formTruthy, ht]
  have h3 : listing (add_todo s (some t)).2 =
      { id := s.nextId, title := t, completed := false, created_at := s.clock } :: listing s := by
    have hnew := insertionSort_append_newest
      { id := s.nextId, title := t, completed := false, created_at := s.clock } s.todos hclock
    simpa [listing, add_todo, hft] using hnew
  exact ⟨by simp [add_todo, hft], by simp [add_todo, hft], h3, by simp [h3]⟩

/-- Witness for C2: adding "Buy milk" to the fresh store yields exactly one
item, first in the listing. -/
theorem add_nonempty_spec_witness :
    (add_todo emptyStore (some "Buy milk")).2.todos =
      [{ id := 1, title := "Buy milk", completed := false, created_at := 0 }]
    ∧ listing (add_todo emptyStore (some "Buy milk")).2 =
      [{ id := 1, title := "Buy milk", completed := false, created_at := 0 }] := by
  have h := add_nonempty_spec emptyStore "Buy milk" (by decide)
    (by intro u hu; simp [emptyStore] at hu)
  refine ⟨by simpa [emptyStore] using h.2.1, ?_⟩
  have h3 := h.2.2.1
  rw [h3]
  rfl

/-- Claim C4: toggling a stored item flips exactly its completed flag while
keeping its id, title and created_at, leaves every other item in place, and
toggling the same id twice restores the store exactly. -/
theorem toggle_spec (s : Store) (i : Nat) (u : Todo) (hu : getTodo s i = some u) :
    (toggle_todo s i).1 = Response.redirectIndex
    ∧ getTodo (toggle_todo s i).2 i = some { u with completed := !u.completed }
    ∧ (∀ v ∈ s.todos, v.id ≠ i → v ∈ (toggle_todo s i).2.todos)
    ∧ (toggle_todo (toggle_todo s i).2 i).2 = s := by
  have h1 := toggle_todo_some s i u hu
  have hfind := find?_updateById i flipCompleted flipCompleted_id s.todos u hu
  have hu' : getTodo (toggle_todo s i).2 i = some (flipCompleted u) := by
    rw [h1]
    simpa [getTodo] using hfind
  refine ⟨by rw [h1], by simpa [flipCompleted] using hu', ?_, ?_⟩
  · intro v hv hvne
    rw [h1]
    exact mem_updateById_of_ne i flipCompleted s.todos v hv hvne
  · have h2 := toggle_todo_some (toggle_todo s i).2 i (flipCompleted u) hu'
    rw [h2, h1]
    show { s with todos := updateById i flipCompleted (updateById i flipCompleted s.todos) } = s
    rw [updateById_updateById i flipCompleted flipCompleted flipCompleted_id,
      updateById_self i _ (fun v _ => flipCompleted_flipCompleted v)]

/-- Witness for C4: toggling the sample item marks it completed, and
toggling twice restores the sample store. -/
theorem toggle_spec_witness :
    getTodo (toggle_todo sampleStore 1).2 1 =
      some { id := 1, title := "Buy milk", completed := true, created_at := 0 }
    ∧ (toggle_todo (toggle_todo sampleStore 1).2 1).2 = sampleStore := by
  have h := toggle_spec sampleStore 1
    { id := 1, title := "Buy milk", completed := false, created_at := 0 } (by decide)
  exact ⟨by simpa using h.2.1, h.2.2.2⟩

/-- Claim C3: editing a stored item with a non-empty title replaces exactly
that item's title (its id, completed and created_at, and every other item,
are unchanged), while editing with an empty or absent title changes no
stored item, surfaces no error, and still redirects to the listing. -/
theorem edit_spec (s : Store) (i : Nat) (u : Todo) (t : String)
    (hu : getTodo s i = some u) (ht : t ≠ "") :
    (edit_todo s i (some t)).1 = Response.redirectIndex
    ∧ getTodo (edit_todo s i (some t)).2 i = some { u with title := t }
    ∧ (∀ v ∈ s.todos, v.id ≠ i → v ∈ (edit_todo s i (some t)).2.todos)
    ∧ (edit_todo s i (some t)).2.todos.length = s.todos.length
    ∧ edit_todo s i (some "") = (Response.redirectIndex, s)
    ∧ edit_todo s i none = (Response.redirectIndex, s) := by
  have hft : formTruthy (some t) = true := by simp [formTruthy, ht]
  have h1 := edit_todo_truthy s i u (some t) hu hft
  have hfind := find?_updateById i (setTitle ((some t).getD "")) (setTitle_id _) s.todos u hu
  refine ⟨by rw [h1], ?_, ?_, ?_,
    edit_todo_falsy s i u (some "") hu (by simp [formTruthy]),
    edit_todo_falsy s i u none hu (by simp [formTruthy])⟩
  · rw [h1]
    simpa [getTodo, setTitle] using hfind
  · intro v hv hvne
    rw [h1]
    exact mem_updateById_of_ne i (setTitle ((some t).getD "")) s.todos v hv hvne
  · rw [h1]
    exact length_updateById i (setTitle ((some t).getD "")) s.todos

/-- Witness for C3: editing the sample item to "Buy oat milk" replaces its
title exactly, while an empty edit leaves the sample store unchanged. -/
theorem edit_spec_witness :
    getTodo (edit_todo sampleStore 1 (some "Buy oat milk")).2 1 =
      some { id := 1, title := "Buy oat milk", completed := false, created_at := 0 }
    ∧ edit_todo sampleStore 1 (some "") = (Response.redirectIndex, sampleStore) := by
  have h := edit_spec sampleStore 1
    { id := 1, title := "Buy milk", completed := false, created_at := 0 } "Buy oat milk"
    (by decide) (by decide)
  exact ⟨by simpa using h.2.1, h.2.2.2.2.1⟩

theorem perm_cons_filter_of_find? (i : Nat) :
    ∀ l : List Todo, (l.map Todo.id).Nodup →
      ∀ u, l.find? (fun v => v.id == i) = some u →
        List.Perm l (u :: l.filter (fun v => v.id != i)) := by
  intro l
  induction l with
  | nil => intro _ u hu; simp at hu
  | cons x l ih =>
      intro hnd u hu
      rw [List.map_cons] at hnd
      have hnd2 := List.nodup_cons.mp hnd
      by_cases hx : x.id = i
      · have hx1 : (x.id == i) = true := by simp [hx]
        have hux : u = x := by
          simp [List.find?, hx1] at hu
          exact hu.symm
        have hl : ∀ v ∈ l, (v.id != i) = true := by
          intro v hv
          have hvne : v.id ≠ i := by
            intro hvi
            exact hnd2.1 (by rw [hx, ← hvi]; exact List.mem_map_of_mem Todo.id hv)
          simpa using hvne
        have hfilter : List.filter (fun v => v.id != i) l = l := List.filter_eq_self.mpr hl
        have hx2 : (x.id != i) = false := by simp [hx]
        have hgoal : List.filter (fun v => v.id != i) (x :: l) = l := by
          have hdrop : List.filter (fun v => v.id != i) (x :: l) =
              List.filter (fun v => v.id != i) l := by
            simp [List.filter_cons, hx2]
          rw [hdrop, hfilter]
        rw [hux, hgoal]
      · have hx1 : (x.id == i) = false := by simp [hx]
        have hu2 : l.find? (fun v => v.id == i) = some u := by
          simpa [List.find?, hx1] using hu
        have hperm := ih hnd2.2 u hu2
        have hx2 : (x.id != i) = true := by simp [hx]
        have hstep : List.filter (fun v => v.id != i) (x :: l) =
            x :: List.filter (fun v => v.id != i) l := by
          simp [List.filter_cons, hx2]
        rw [hstep]
        exact (hperm.cons x).trans (List.Perm.swap u x _)

/-- Claim C5: deleting a stored item removes exactly that item — every
remaining item is an original item with a different id and every original
item with a different id remains — and afterwards toggle, delete and edit
addressing the deleted id all fail with Not-Found. -/
theorem delete_spec (s : Store) (i : Nat) (u : Todo)
    (hu : getTodo s i = some u) (hnd : (s.todos.map Todo.id).Nodup) :
    (delete_todo s i).1 = Response.redirectIndex
    ∧ List.Perm s.todos (u :: (delete_todo s i).2.todos)
    ∧ (∀ v ∈ (delete_todo s i).2.todos, v ∈ s.todos ∧ v.id ≠ i)
    ∧ (∀ v ∈ s.todos, v.id ≠ i → v ∈ (delete_todo s i).2.todos)
    ∧ (toggle_todo (delete_todo s i).2 i).1 = Response.notFound
    ∧ (delete_todo (delete_todo s i).2 i).1 = Response.notFound
    ∧ ∀ title, (edit_todo (delete_todo s i).2 i title).1 = Response.notFound := by
  have h1 := delete_todo_some s i u hu
  have hs' : (delete_todo s i).2 = { s with todos := s.todos.filter (fun v => v.id != i) } := by
    rw [h1]
  have hnone : getTodo { s with todos := s.todos.filter (fun v => v.id != i) } i = none := by
    rw [getTodo_eq_none_iff]
    intro w hw
    have hw2 := List.mem_filter.mp hw
    simpa using hw2.2
  refine ⟨by rw [h1], ?_, ?_, ?_, ?_, ?_, ?_⟩
  · rw [h1]
    exact perm_cons_filter_of_find? i s.todos hnd u hu
  · intro v hv
    rw [h1] at hv
    have hv2 := List.mem_filter.mp hv
    exact ⟨hv2.1, by simpa using hv2.2⟩
  · intro v hv hvne
    rw [h1]
    exact List.mem_filter.mpr ⟨hv, by simpa using hvne⟩
  · rw [hs']
    simp [toggle_todo, hnone]
  · rw [hs']
    simp [delete_todo, hnone]
  · intro title
    rw [hs']
    simp [edit_todo, hnone]

/-- Witness for C5: deleting the sample item empties the store and a
subsequent toggle of the same id returns Not-Found. -/
theorem delete_spec_witness :
    (delete_todo sampleStore 1).2.todos = []
    ∧ (toggle_todo (delete_todo sampleStore 1).2 1).1 = Response.notFound := by
  have h := delete_spec sampleStore 1
    { id := 1, title := "Buy milk", completed := false, created_at := 0 } (by decide) (by decide)
  exact ⟨by decide, h.2.2.2.2.1⟩

/-- Claim C8: with an empty or absent title, create is a silent no-op and
edit of a stored item is a silent no-op: the stored items are unchanged, no
error is surfaced, and the response is still a redirect to the listing. -/
theorem add_edit_empty_noop (s : Store) (i : Nat) (u : Todo) (hu : getTodo s i = some u) :
    add_todo s none = (Response.redirectIndex, s)
    ∧ add_todo s (some "") = (Response.redirectIndex, s)
    ∧ edit_todo s i none = (Response.redirectIndex, s)
    ∧ edit_todo s i (some "") = (Response.redirectIndex, s) :=
  ⟨by simp [add_todo, formTruthy], by simp [add_todo, formTruthy],
   edit_todo_falsy s i u none hu (by simp [formTruthy]),
   edit_todo_falsy s i u (some "") hu (by simp [formTruthy])⟩

/-- Witness for C8: empty-title create and edit leave the sample store
unchanged and redirect. -/
theorem add_edit_empty_noop_witness :
    add_todo sampleStore (some "") = (Response.redirectIndex, sampleStore)
    ∧ edit_todo sampleStore 1 (some "") = (Response.redirectIndex, sampleStore) := by
  have h := add_edit_empty_noop sampleStore 1
    { id := 1, title := "Buy milk", completed := false, created_at := 0 } (by decide)
  exact ⟨h.2.1, h.2.2.2⟩

/-- Claim C10: the emptiness check is Python string truthiness — an absent
field and the empty string are falsy and cause the silent no-op, while a
whitespace-only title such as " " is truthy and is stored unmodified (no
trimming) both by create and by edit. -/
theorem truthiness_no_trim (s : Store) (i : Nat) (u : Todo) (hu : getTodo s i = some u) :
    formTruthy none = false
    ∧ formTruthy (some "") = false
    ∧ formTruthy (some " ") = true
    ∧ (add_todo s none).2 = s
    ∧ (add_todo s (some "")).2 = s
    ∧ (add_todo s (some " ")).2.todos =
        s.todos ++ [{ id := s.nextId, title := " ", completed := false, created_at := s.clock }]
    ∧ getTodo (edit_todo s i (some " ")).2 i = some { u with title := " " } := by
  have hft : formTruthy (some " ") = true := by simp [formTruthy]
  have h1 := edit_todo_truthy s i u (some " ") hu hft
  have hfind := find?_updateById i (setTitle ((some " ").getD "")) (setTitle_id _) s.todos u hu
  refine ⟨rfl, by simp [formTruthy], hft, by simp [add_todo, formTruthy],
    by simp [add_todo, formTruthy], by simp [add_todo, hft], ?_⟩
  rw [h1]
  simpa [getTodo, setTitle] using hfind

/-- Witness for C10: adding " " to the sample store stores the single-space
title verbatim as a second item. -/
theorem truthiness_no_trim_witness :
    (add_todo sampleStore (some " ")).2.todos =
      [{ id := 1, title := "Buy milk", completed := false, created_at := 0 },
       { id := 2, title := " ", completed := false, created_at := 1 }] := by
  have h := truthiness_no_trim sampleStore 1
    { id := 1, title := "Buy milk", completed := false, created_at := 0 } (by decide)
  simpa [sampleStore] using h.2.2.2.2.2.1

/-- Claim C6: the listing renders exactly the stored items, ordered by
created_at descending; on the empty store it renders the empty list. -/
theorem index_sorted_perm (s : Store) :
    index s = Response.html (listing s)
    ∧ List.Perm (listing s) s.todos
    ∧ List.Sorted todoNewer (listing s)
    ∧ index emptyStore = Response.html [] :=
  ⟨rfl, List.perm_insertionSort todoNewer s.todos,
    List.sorted_insertionSort todoNewer s.todos, rfl⟩

theorem mem_updateById_cases (i : Nat) (f : Todo → Todo) (l : List Todo) (v : Todo)
    (hv : v ∈ updateById i f l) : ∃ u ∈ l, v = u ∨ v = f u := by
  simp only [updateById] at hv
  rcases List.mem_map.mp hv with ⟨u, hu, heq⟩
  by_cases hui : u.id = i
  · exact ⟨u, hu, Or.inr (by simpa [hui] using heq.symm)⟩
  · exact ⟨u, hu, Or.inl (by simpa [hui] using heq.symm)⟩

theorem formTruthy_getD_ne (title : Option String) (h : formTruthy title = true) :
    title.getD "" ≠ "" := by
  cases title with
  | none => simp [formTruthy] at h
  | some t => simpa [formTruthy] using h

theorem applyOp_nonEmptyTitles (s : Store) (op : Op) (h : nonEmptyTitles s) :
    nonEmptyTitles (applyOp s op) := by
  cases op with
  | add title =>
      by_cases hft : formTruthy title = true
      · intro v hv
        simp only [applyOp, add_todo, hft, if_true] at hv
        rcases List.mem_append.mp hv with hv1 | hv2
        · exact h v hv1
        · have hvnew := List.mem_singleton.mp hv2
          rw [hvnew]
          exact formTruthy_getD_ne title hft
      · have hft2 : formTruthy title = false := by
          cases hb : formTruthy title
          · rfl
          · exact absurd hb hft
        intro v hv
        simp only [applyOp, add_todo, hft2, Bool.false_eq_true, if_false] at hv
        exact h v hv
  | toggle i =>
      rcases hg : getTodo s i with _ | w
      · have heq : (toggle_todo s i).2 = s := by simp [toggle_todo, hg]
        intro v hv
        simp only [applyOp] at hv
        rw [heq] at hv
        exact h v hv
      · have h2 := toggle_todo_some s i w hg
        intro v hv
        simp only [applyOp] at hv
        rw [h2] at hv
        rcases mem_updateById_cases i flipCompleted s.todos v hv with ⟨u, hu, hvu | hvu⟩
        · rw [hvu]
          exact h u hu
        · rw [hvu]
          simpa [flipCompleted] using h u hu
  | delete i =>
      rcases hg : getTodo s i with _ | w
      · have heq : (delete_todo s i).2 = s := by simp [delete_todo, hg]
        intro v hv
        simp only [applyOp] at hv
        rw [heq] at hv
        exact h v hv
      · have h2 := delete_todo_some s i w hg
        intro v hv
        simp only [applyOp] at hv
        rw [h2] at hv
        exact h v (List.mem_filter.mp hv).1
  | edit i title =>
      rcases hg : getTodo s i with _ | w
      · have heq : (edit_todo s i title).2 = s := by simp [edit_todo, hg]
        intro v hv
        simp only [applyOp] at hv
        rw [heq] at hv
        exact h v hv
      · by_cases hft : formTruthy title = true
        · have h2 := edit_todo_truthy s i w title hg hft
          intro v hv
          simp only [applyOp] at hv
          rw [h2] at hv
          rcases mem_updateById_cases i (setTitle (title.getD "")) s.todos v hv with
            ⟨u, hu, hvu | hvu⟩
          · rw [hvu]
            exact h u hu
          · rw [hvu]
            simpa [setTitle] using formTruthy_getD_ne title hft
        · have hft2 : formTruthy title = false := by
            cases hb : formTruthy title
            · rfl
            · exact absurd hb hft
          have h2 := edit_todo_falsy s i w title hg hft2
          intro v hv
          simp only [applyOp] at hv
          rw [h2] at hv
          exact h v hv
  | list => exact h

/-- Claim C7: starting from the fresh store, every state reachable through
any sequence of create, list, toggle, edit and delete requests contains
only items with non-empty titles. -/
theorem reachable_nonEmptyTitles (ops : List Op) : nonEmptyTitles (runOps ops) := by
  suffices hgen : ∀ (ops2 : List Op) (s : Store),
      nonEmptyTitles s → nonEmptyTitles (ops2.foldl applyOp s) by
    exact hgen ops emptyStore (by intro v hv; simp [emptyStore] at hv)
  intro ops2
  induction ops2 with
  | nil => intro s hs; exact hs
  | cons op rest ih =>
      intro s hs
      exact ih (applyOp s op) (applyOp_nonEmptyTitles s op hs)

theorem map_id_updateById (i : Nat) (f : Todo → Todo) (hf : ∀ v, (f v).id = v.id)
    (l : List Todo) : (updateById i f l).map Todo.id = l.map Todo.id := by
  simp only [updateById, List.map_map]
  apply List.map_congr_left
  intro v _
  by_cases hv : v.id = i
  · simp [Function.comp, hv, hf]
  · simp [Function.comp, hv]

theorem flipCompleted_created_at (v : Todo) : (flipCompleted v).created_at = v.created_at := rfl

theorem setTitle_created_at (t : String) (v : Todo) :
    (setTitle t v).created_at = v.created_at := rfl

theorem applyOp_wf (s : Store) (op : Op) (h : StoreWF s) : StoreWF (applyOp s op) := by
  cases op with
  | add title =>
      by_cases hft : formTruthy title = true
      · have heq : applyOp s (Op.add title) =
            { todos := s.todos ++
                [{ id := s.nextId, title := title.getD "", completed := false,
                   created_at := s.clock }],
              nextId := s.nextId + 1, clock := s.clock + 1 } := by
          simp [applyOp, add_todo, hft]
        rw [heq]
        refine ⟨?_, ?_, ?_⟩
        · intro v hv
          rcases List.mem_append.mp hv with hv1 | hv2
          · exact Nat.lt_succ_of_lt (h.ids_lt v hv1)
          · rw [List.mem_singleton.mp hv2]
            exact Nat.lt_succ_self _
        · intro v hv
          rcases List.mem_append.mp hv with hv1 | hv2
          · exact Nat.lt_succ_of_lt (h.times_lt v hv1)
          · rw [List.mem_singleton.mp hv2]
            exact Nat.lt_succ_self _
        · rw [List.map_append, List.nodup_append]
          refine ⟨h.ids_nodup, by simp, ?_⟩
          intro a ha hb
          rcases List.mem_map.mp ha with ⟨v, hv, hva⟩
          have hlt := h.ids_lt v hv
          rw [hva] at hlt
          simp only [List.map_cons, List.map_nil, List.mem_singleton] at hb
          rw [hb] at hlt
          exact Nat.lt_irrefl _ hlt
      · have hft2 : formTruthy title = false := by
          cases hb : formTruthy title
          · rfl
          · exact absurd hb hft
        have heq : applyOp s (Op.add title) = s := by
          simp [applyOp, add_todo, hft2]
        rw [heq]
        exact h
  | toggle i =>
      rcases hg : getTodo s i with _ | w
      · have heq : applyOp s (Op.toggle i) = s := by simp [applyOp, toggle_todo, hg]
        rw [heq]
        exact h
      · have heq : applyOp s (Op.toggle i) =
            { s with todos := updateById i flipCompleted s.todos } := by
          simp only [applyOp]
          rw [toggle_todo_some s i w hg]
        rw [heq]
        refine ⟨?_, ?_, ?_⟩
        · intro v hv
          rcases mem_updateById_cases i flipCompleted s.todos v hv with ⟨u, hu, hvu | hvu⟩
          · rw [hvu]
            exact h.ids_lt u hu
          · rw [hvu, flipCompleted_id]
            exact h.ids_lt u hu
        · intro v hv
          rcases mem_updateById_cases i flipCompleted s.todos v hv with ⟨u, hu, hvu | hvu⟩
          · rw [hvu]
            exact h.times_lt u hu
          · rw [hvu, flipCompleted_created_at]
            exact h.times_lt u hu
        · show (List.map Todo.id (updateById i flipCompleted s.todos)).Nodup
          rw [map_id_updateById i flipCompleted flipCompleted_id]
          exact h.ids_nodup
  | delete i =>
      rcases hg : getTodo s i with _ | w
      · have heq : applyOp s (Op.delete i) = s := by simp [applyOp, delete_todo, hg]
        rw [heq]
        exact h
      · have heq : applyOp s (Op.delete i) =
            { s with todos := s.todos.filter (fun v => v.id != i) } := by
          simp only [applyOp]
          rw [delete_todo_some s i w hg]
        rw [heq]
        refine ⟨?_, ?_, ?_⟩
        · intro v hv
          exact h.ids_lt v (List.mem_filter.mp hv).1
        · intro v hv
          exact h.times_lt v (List.mem_filter.mp hv).1
        · exact List.Nodup.sublist ((List.filter_sublist s.todos).map Todo.id) h.ids_nodup
  | edit i title =>
      rcases hg : getTodo s i with _ | w
      · have heq : applyOp s (Op.edit i title) = s := by simp [applyOp, edit_todo, hg]
        rw [heq]
        exact h
      · by_cases hft : formTruthy title = true
        · have heq : applyOp s (Op.edit i title) =
              { s with todos := updateById i (setTitle (title.getD "")) s.todos } := by
            simp only [applyOp]
            rw [edit_todo_truthy s i w title hg hft]
          rw [heq]
          refine ⟨?_, ?_, ?_⟩
          · intro v hv
            rcases mem_updateById_cases i (setTitle (title.getD "")) s.todos v hv with
              ⟨u, hu, hvu | hvu⟩
            · rw [hvu]
              exact h.ids_lt u hu
            · rw [hvu, setTitle_id]
              exact h.ids_lt u hu
          · intro v hv
            rcases mem_updateById_cases i (setTitle (title.getD "")) s.todos v hv with
              ⟨u, hu, hvu | hvu⟩
            · rw [hvu]
              exact h.times_lt u hu
            · rw [hvu, setTitle_created_at]
              exact h.times_lt u hu
          · show (List.map Todo.id (updateById i (setTitle (title.getD "")) s.todos)).Nodup
            rw [map_id_updateById i (setTitle (title.getD "")) (setTitle_id _)]
            exact h.ids_nodup
        · have hft2 : formTruthy title = false := by
            cases hb : formTruthy title
            · rfl
            · exact absurd hb hft
          have heq : applyOp s (Op.edit i title) = s := by
            simp only [applyOp]
            rw [edit_todo_falsy s i w title hg hft2]
          rw [heq]
          exact h
  | list => exact h

/-- Every reachable store is well-formed: primary keys are pairwise distinct
and below the auto-increment counter, timestamps are below the clock — so
the hypotheses used about ids and timestamps hold in every reachable state. -/
theorem storeWF_runOps (ops : List Op) : StoreWF (runOps ops) := by
  suffices hgen : ∀ (ops2 : List Op) (s : Store), StoreWF s → StoreWF (ops2.foldl applyOp s) by
    exact hgen ops emptyStore
      ⟨by intro v hv; simp [emptyStore] at hv,
       by intro v hv; simp [emptyStore] at hv,
       by simp [emptyStore]⟩
  intro ops2
  induction ops2 with
  | nil => intro s hs; exact hs
  | cons op rest ih =>
      intro s hs
      exact ih (applyOp s op) (applyOp_wf s op hs)

/-- A 201-character title, one character beyond the column width declared by
`db.String(200)` (app.py line 51). -/
def longTitle : String := String.mk (List.replicate 201 'a')

set_option maxRecDepth 8192 in
/-- Claim C9 is violated by the code as written: the handlers never check
the title length, and SQLite does not enforce the declared `VARCHAR(200)`
width, so creating an item with a 201-character title stores all 201
characters — contradicting the schema comment "max 200 characters"
(app.py line 50). -/
theorem overlong_title_stored :
    ∃ v ∈ (add_todo emptyStore (some longTitle)).2.todos, 200 < v.title.length := by
  decide

end FlaskTaskManager
